import Mathlib

/-!
Verification of the Chain Head Coordination (CHC) subsystem.

The definitions below are a shallow embedding of:
- `crates/holochain/src/conductor/chc.rs` (local in-memory coordinator
  `LocalChc`, with `next_transaction_id`, `add_transaction`,
  `get_transactions_since_id`, errors `ChcError`);
- `crates/holochain/src/conductor/chc/chc_remote.rs` (HTTP client
  `ChcRemote`, helpers `url`/`post`, methods `add_actions` and
  `get_actions_since_hash`);
- `crates/holochain_types/src/chc.rs` (remote `ChcError` taxonomy);
- the chain validator, which does not appear in the sources and is
  modelled from the specification text.

The local coordinator's `Mutex`-guarded `Vec<Vec<A>>` is embedded as
explicit state passing over `List (List (ChcItemData H))`: each operation
takes the log it observes under the lock and `add_transaction` returns the
log as left behind.  A Rust panic (an out-of-range slice) is embedded as
`none`; fallible results use `Except`.
-/

namespace Chc

/-- Embedding of the `ChcItem` trait of `chc.rs`: the trait exposes exactly
`as_hash(&self) -> &Hash` and `prev_hash(&self) -> Option<&Hash>`, so an
item is a record of those two facets, over an opaque comparable hash
type `H`. -/
structure ChcItemData (H : Type) where
  hash : H
  prev_hash : Option H
deriving DecidableEq, Repr

/-- `ChcError` of `chc.rs` (the local coordinator's error type). -/
inductive ChcError : Type where
  | WrongTransactionId : ChcError
  | HashMismatch : ChcError
deriving DecidableEq, Repr

/-- `pub type Transactions<A> = Vec<Vec<A>>;` -/
abbrev Transactions (H : Type) := List (List (ChcItemData H))

/-- `fn next_transaction_id(&self) -> TxnId { self.transactions.lock().len() }` -/
def next_transaction_id {H : Type} (txns : Transactions H) : Nat :=
  txns.length

/-- The boundary hash check of `add_transaction`:
`let last = txns.last().and_then(|t| t.last());`
`if let (Some(last), Some(next)) = (last, actions.first()) { next.prev_hash() != Some(last.as_hash()) }`
— `true` exactly when the check fires and the batch is rejected. -/
def boundary_mismatch {H : Type} [DecidableEq H]
    (txns : Transactions H) (actions : List (ChcItemData H)) : Bool :=
  match txns.getLast?.bind (fun t => t.getLast?), actions.head? with
  | some last, some next => decide (next.prev_hash ≠ some last.hash)
  | _, _ => false

/-- `fn add_transaction(&self, txn_id, actions) -> Result<(), ChcError>` of
`LocalChc`.  The pair carries the call's result together with the log left
behind by the call: the two early `return Err(..)` paths leave the log as
it was; the success path executes `txns.push(actions)`. -/
def add_transaction {H : Type} [DecidableEq H]
    (txns : Transactions H) (txn_id : Nat) (actions : List (ChcItemData H)) :
    Except ChcError Unit × Transactions H :=
  if txns.length ≠ txn_id then
    (Except.error ChcError.WrongTransactionId, txns)
  else if boundary_mismatch txns actions then
    (Except.error ChcError.HashMismatch, txns)
  else
    (Except.ok (), txns ++ [actions])

/-- `fn get_transactions_since_id(&self, txn_id) -> Transactions<A>` of
`LocalChc`, whose body is `self.transactions.lock()[txn_id..].to_vec()`.
A Rust range slice `v[k..]` yields the suffix from `k` when `k <= v.len()`
and panics otherwise; the panic is embedded as `none`. -/
def get_transactions_since_id {H : Type} (txns : Transactions H) (txn_id : Nat) :
    Option (Transactions H) :=
  if txn_id ≤ txns.length then some (txns.drop txn_id) else none

/-- Appending a list of batches in order on top of a starting log, each at
the id the coordinator returns for it (`next_transaction_id`, i.e. the
current log length), stopping at the first error.  This is the calling
pattern of the `test_add_transaction` test of `chc.rs`. -/
def append_all {H : Type} [DecidableEq H]
    (txns : Transactions H) : List (List (ChcItemData H)) → Except ChcError (Transactions H)
  | [] => Except.ok txns
  | t :: ts =>
    match add_transaction txns txns.length t with
    | (Except.ok _, txns2) => append_all txns2 ts
    | (Except.error e, _) => Except.error e

/-! ## Remote client (`chc_remote.rs` with the taxonomy of `holochain_types/src/chc.rs`) -/

/-- The remote `ChcError` taxonomy of `crates/holochain_types/src/chc.rs`:
`ServiceUnreachable(reqwest::Error)`, `InvalidChain(String)`,
`DeserializationError(SerializedBytesError)`.  The wrapped payloads are
irrelevant to the claims and elided. -/
inductive RemoteChcError : Type where
  | ServiceUnreachable : RemoteChcError
  | InvalidChain : RemoteChcError
  | DeserializationError : RemoteChcError
deriving DecidableEq, Repr

/-- `pub struct ChcRemote { base_url: url::Url }`; the URL is kept abstract
as its textual form. -/
structure ChcRemote where
  base_url : String

/-- `fn url(&self, path: &str) -> Url`: asserts the path starts with a
slash, then parses `format!("{}{}", self.base_url, path)`.  The
`assert!` panic is embedded as `none`; successful parsing keeps the
concatenated text. -/
def ChcRemote.url (c : ChcRemote) (path : String) : Option String :=
  if path.data.head? = some '/' then some (c.base_url ++ path) else none

/-- An HTTP request the client is about to issue: target URL and body. -/
structure HttpRequest where
  url : String
  body : List Nat
deriving DecidableEq, Repr

/-- The request built by `async fn post(&self, path, body)`: its body is
`client.post(self.url("/add_actions")).body(body).send()`, so the URL is
built from the literal `"/add_actions"`, not from `path`. -/
def ChcRemote.post_request (c : ChcRemote) (path : String) (body : List Nat) :
    Option HttpRequest :=
  (c.url "/add_actions").map (fun u => { url := u, body := body })

/-- The request issued by `get_actions_since_hash`, which calls
`self.post("/get_actions_since_hash", body)` with the encoded hash as
body. -/
def ChcRemote.get_actions_since_hash_request (c : ChcRemote) (encoded_hash : List Nat) :
    Option HttpRequest :=
  c.post_request "/get_actions_since_hash" encoded_hash

/-- Outcome of one HTTP round trip as `reqwest` reports it to `post`:
either a transport-level `reqwest::Error` (connection failure, timeout —
whether at `send()` or while reading the body), or a received response
with an HTTP status code and body bytes. -/
inductive HttpOutcome : Type where
  | transportError : HttpOutcome
  | response (status : Nat) (body : List Nat) : HttpOutcome
deriving DecidableEq, Repr

/-- Result of `async fn post(..) -> ChcResult<Bytes>` as a function of the
round-trip outcome: the two `?` operators turn a `reqwest::Error` into
`ChcError::ServiceUnreachable` via `#[from]`; any received response has
its bytes returned — `send()` does not fail on a non-success status and
`post` never consults `status()`/`error_for_status()`. -/
def post_result (outcome : HttpOutcome) : Except RemoteChcError (List Nat) :=
  match outcome with
  | HttpOutcome.transportError => Except.error RemoteChcError.ServiceUnreachable
  | HttpOutcome.response _ body => Except.ok body

/-- Result of `async fn add_actions(..) -> ChcResult<()>` as a function of
the round-trip outcome: `let response = self.post("/add_actions", body).await?; Ok(())`
— the response bytes are bound and then discarded. -/
def add_actions_result (outcome : HttpOutcome) : Except RemoteChcError Unit :=
  match post_result outcome with
  | Except.error e => Except.error e
  | Except.ok _ => Except.ok ()

/-! ## Chain validator, modelled from the specification -/

/-- Embedding of the `ChainItem` trait of `holochain_types/src/chain.rs`:
`item_hash`, `prev_hash`, and `seq` (the item's position). -/
structure ChainItemData (H : Type) where
  hash : H
  prev_hash : Option H
  seq : Nat
deriving DecidableEq, Repr

/-- Modelled from the spec: the first-item check of `validate_chain`.
If `current_head` exists as a `(hash, position)` pair, the candidate's
first item must have `prev_hash` equal to the head's hash and position
equal to the head's position plus one; if `current_head` is absent, the
first item must sit at position 0 with no `prev_hash`. -/
def head_check {H : Type} [DecidableEq H]
    (current_head : Option (H × Nat)) (a : ChainItemData H) : Bool :=
  match current_head with
  | some (h, p) => decide (a.prev_hash = some h ∧ a.seq = p + 1)
  | none => decide (a.seq = 0 ∧ a.prev_hash = none)

/-- Modelled from the spec: the internal hash-link scan of
`validate_chain`, walking the candidates in order; `prev` is the item at
index `i - 1`.  Returns the first offending index on a broken link. -/
def link_scan {H : Type} [DecidableEq H]
    (prev : ChainItemData H) (i : Nat) :
    List (ChainItemData H) → Except Nat Unit
  | [] => Except.ok ()
  | b :: rest =>
    if b.prev_hash = some prev.hash then link_scan b (i + 1) rest
    else Except.error i

/-- Modelled from the spec: `validate_chain(candidate_items, current_head)`
(the validator itself is not among the provided source files; only the
`ChainItem` trait and the `InvalidChain` error variant appear there).
Checks that the candidates are internally hash-linked and that the first
item matches `current_head`; fails with the `InvalidChain` condition
carrying the first offending index, succeeds silently otherwise.  An
empty candidate sequence has nothing to check and succeeds. -/
def validate_chain {H : Type} [DecidableEq H]
    (candidate_items : List (ChainItemData H)) (current_head : Option (H × Nat)) :
    Except Nat Unit :=
  match candidate_items with
  | [] => Except.ok ()
  | a :: rest =>
    if head_check current_head a then link_scan a 1 rest
    else Except.error 0

/-- The claim's success characterization for an absent head: the sequence
starts at position 0 with no `prev_hash`. -/
def starts_fresh {H : Type} (items : List (ChainItemData H)) : Prop :=
  ∀ a, items.head? = some a → a.seq = 0 ∧ a.prev_hash = none

/-- The claim's success characterization: internally hash-linked — every
item after the first carries the previous item's hash. -/
def internally_linked {H : Type} (items : List (ChainItemData H)) : Prop :=
  ∀ i a b, items[i]? = some a → items[i + 1]? = some b →
    b.prev_hash = some a.hash

/-- Index `i` is offending for an absent head: index 0 offends when the
first item is not at position 0 with no parent; index `i + 1` offends when
the link from item `i` to item `i + 1` is broken. -/
def offending {H : Type} (items : List (ChainItemData H)) : Nat → Prop
  | 0 => ∃ a, items.head? = some a ∧ ¬(a.seq = 0 ∧ a.prev_hash = none)
  | i + 1 => ∃ a b, items[i]? = some a ∧ items[i + 1]? = some b ∧
      b.prev_hash ≠ some a.hash

/-! ## Helper lemmas -/

/-- Case analysis on `add_transaction`: the call either succeeds and pushes
the whole batch, or fails and leaves the log as observed. -/
theorem add_transaction_cases {H : Type} [DecidableEq H]
    (txns : Transactions H) (txn_id : Nat) (actions : List (ChcItemData H)) :
    add_transaction txns txn_id actions = (Except.ok (), txns ++ [actions])
  ∨ ∃ e, add_transaction txns txn_id actions = (Except.error e, txns) := by
  unfold add_transaction
  split
  · exact Or.inr ⟨_, rfl⟩
  · split
    · exact Or.inr ⟨_, rfl⟩
    · exact Or.inl rfl

/-- A successful `add_transaction` leaves exactly the old log with the
batch pushed. -/
theorem add_transaction_ok_state {H : Type} [DecidableEq H]
    {txns : Transactions H} {txn_id : Nat} {actions : List (ChcItemData H)}
    {x : Unit} {s2 : Transactions H}
    (h : add_transaction txns txn_id actions = (Except.ok x, s2)) :
    s2 = txns ++ [actions] := by
  unfold add_transaction at h
  split at h
  · simp at h
  · split at h
    · simp at h
    · simp only [Prod.mk.injEq] at h
      exact h.2.symm

/-- A run of `append_all` that ends in `ok` has appended exactly the given
batches, in order. -/
theorem append_all_ok_eq {H : Type} [DecidableEq H] :
    ∀ (ts : List (List (ChcItemData H))) (txns s : Transactions H),
      append_all txns ts = Except.ok s → s = txns ++ ts := by
  intro ts
  induction ts with
  | nil =>
    intro txns s h
    unfold append_all at h
    cases h
    simp
  | cons t ts ih =>
    intro txns s h
    unfold append_all at h
    split at h
    · next x txns2 heq =>
      have h2 := add_transaction_ok_state heq
      subst h2
      have := ih (txns ++ [t]) s h
      simpa using this
    · exact absurd h (by simp)

/-- The hash-link scan succeeds exactly when every adjacent pair of the
scanned items (including the start item) is properly linked. -/
theorem link_scan_ok_iff {H : Type} [DecidableEq H] :
    ∀ (rest : List (ChainItemData H)) (a : ChainItemData H) (i : Nat),
      link_scan a i rest = Except.ok () ↔
        ∀ k x y, (a :: rest)[k]? = some x → (a :: rest)[k + 1]? = some y →
          y.prev_hash = some x.hash := by
  intro rest
  induction rest with
  | nil =>
    intro a i
    constructor
    · intro _ k x y hx hy
      rw [List.getElem?_cons_succ] at hy
      simp at hy
    · intro _
      rfl
  | cons b rest ih =>
    intro a i
    unfold link_scan
    by_cases hlink : b.prev_hash = some a.hash
    · rw [if_pos hlink, ih b (i + 1)]
      constructor
      · intro hp k x y hx hy
        cases k with
        | zero =>
          simp only [List.getElem?_cons_zero, Option.some.injEq] at hx
          simp only [List.getElem?_cons_succ, List.getElem?_cons_zero,
            Option.some.injEq] at hy
          subst hx
          subst hy
          exact hlink
        | succ k =>
          rw [List.getElem?_cons_succ] at hx hy
          exact hp k x y hx hy
      · intro hp k x y hx hy
        have hx2 : (a :: b :: rest)[k + 1]? = some x := by
          rw [List.getElem?_cons_succ]; exact hx
        have hy2 : (a :: b :: rest)[k + 1 + 1]? = some y := by
          rw [List.getElem?_cons_succ]; exact hy
        exact hp (k + 1) x y hx2 hy2
    · rw [if_neg hlink]
      constructor
      · intro h
        exact absurd h (by simp)
      · intro hp
        exact absurd (hp 0 a b (by simp) (by simp)) hlink

/-- When the hash-link scan fails with index `j`, the pair ending at
relative offset `j - i` is the first broken link among the scanned
items. -/
theorem link_scan_error {H : Type} [DecidableEq H] :
    ∀ (rest : List (ChainItemData H)) (a : ChainItemData H) (i j : Nat),
      link_scan a i rest = Except.error j →
        ∃ k, j = i + k ∧
          (∃ x y, (a :: rest)[k]? = some x ∧ (a :: rest)[k + 1]? = some y ∧
            y.prev_hash ≠ some x.hash) ∧
          (∀ m, m < k → ∀ x y, (a :: rest)[m]? = some x →
            (a :: rest)[m + 1]? = some y → y.prev_hash = some x.hash) := by
  intro rest
  induction rest with
  | nil =>
    intro a i j h
    exact absurd h (by simp [link_scan])
  | cons b rest ih =>
    intro a i j h
    unfold link_scan at h
    by_cases hlink : b.prev_hash = some a.hash
    · rw [if_pos hlink] at h
      obtain ⟨k, hk, ⟨x, y, hx, hy, hbad⟩, hgood⟩ := ih b (i + 1) j h
      refine ⟨k + 1, by omega, ⟨x, y, ?_, ?_, hbad⟩, ?_⟩
      · rw [List.getElem?_cons_succ]; exact hx
      · rw [List.getElem?_cons_succ]; exact hy
      · intro m hm x2 y2 hx2 hy2
        cases m with
        | zero =>
          simp only [List.getElem?_cons_zero, Option.some.injEq] at hx2
          simp only [List.getElem?_cons_succ, List.getElem?_cons_zero,
            Option.some.injEq] at hy2
          subst hx2
          subst hy2
          exact hlink
        | succ m =>
          rw [List.getElem?_cons_succ] at hx2 hy2
          exact hgood m (by omega) x2 y2 hx2 hy2
    · rw [if_neg hlink] at h
      injection h with hij
      refine ⟨0, by omega, ⟨a, b, by simp, by simp, hlink⟩, ?_⟩
      intro m hm
      exact absurd hm (Nat.not_lt_zero m)

/-! ## Claim theorems -/

/-- C10: the `post` helper of the remote client builds its request URL from
the literal path `"/add_actions"`, ignoring its `path` argument; in
particular `get_actions_since_hash` sends its request to the
`add_actions` endpoint. -/
theorem post_targets_add_actions :
    (∀ (c : ChcRemote) (path : String) (body : List Nat),
      c.post_request path body =
        some { url := c.base_url ++ "/add_actions", body := body })
  ∧ (∀ (c : ChcRemote) (encoded_hash : List Nat),
      c.get_actions_since_hash_request encoded_hash =
        some { url := c.base_url ++ "/add_actions", body := encoded_hash }) := by
  constructor
  · intro c path body
    rw [ChcRemote.post_request, ChcRemote.url, if_pos (by decide)]
    rfl
  · intro c encoded_hash
    rw [ChcRemote.get_actions_since_hash_request, ChcRemote.post_request,
      ChcRemote.url, if_pos (by decide)]
    rfl

/-- C2 counterexample: a received failure response (HTTP status 500 with a
body that would encode a remote rejection) is not mapped into any
`ChcError`: `add_actions` discards the response and returns `Ok(())`,
and in particular does not surface `ServiceUnreachable`. -/
theorem add_actions_ignores_failure_response :
    add_actions_result (HttpOutcome.response 500 [0]) = Except.ok ()
  ∧ add_actions_result (HttpOutcome.response 500 [0]) ≠
      Except.error RemoteChcError.ServiceUnreachable := by
  refine ⟨rfl, ?_⟩
  intro h
  simp [add_actions_result, post_result] at h

/-- C2 amended: the remote `add_actions` surfaces `ServiceUnreachable`
exactly for transport-level failures (connection failure or timeout —
any `reqwest::Error`); any response that is received at all, whatever
its status code or body — including one reporting a remote rejection —
is discarded and the call returns `Ok(())`. -/
theorem add_actions_outcome_mapping :
    add_actions_result HttpOutcome.transportError =
      Except.error RemoteChcError.ServiceUnreachable
  ∧ ∀ (status : Nat) (body : List Nat),
      add_actions_result (HttpOutcome.response status body) = Except.ok () :=
  ⟨rfl, fun _ _ => rfl⟩

/-- C1 counterexample: on the empty log, `get_transactions_since_id 1`
panics (the Rust range slice `v[1..]` with `v.len() = 0`, embedded as
`none`) instead of returning the empty sequence as the claim states. -/
theorem get_transactions_since_id_panics_beyond_len :
    get_transactions_since_id ([] : Transactions Nat) 1 = none
  ∧ get_transactions_since_id ([] : Transactions Nat) 1 ≠ some [] := by
  refine ⟨rfl, ?_⟩
  intro h
  simp [get_transactions_since_id] at h

/-- C1 amended: for `k ≤` the log length, `get_transactions_since_id k`
succeeds and returns exactly the committed transactions with id `≥ k`, in
ascending order (element `i` of the result is transaction `k + i`); at
`k =` the log length it returns the empty sequence; but for `k` strictly
beyond the log length it panics (out-of-range slice, embedded as `none`)
rather than returning an empty sequence. -/
theorem get_transactions_since_id_amended {H : Type}
    (txns : Transactions H) (k : Nat) :
    (k ≤ txns.length → get_transactions_since_id txns k = some (txns.drop k))
  ∧ (∀ i, (txns.drop k)[i]? = txns[k + i]?)
  ∧ (get_transactions_since_id txns txns.length = some [])
  ∧ (txns.length < k → get_transactions_since_id txns k = none) := by
  refine ⟨?_, ?_, ?_, ?_⟩
  · intro h
    simp [get_transactions_since_id, h]
  · intro i
    exact List.getElem?_drop txns k i
  · simp [get_transactions_since_id, List.drop_length]
  · intro h
    rw [get_transactions_since_id, if_neg (by omega)]

/-- C1 witness: the amended theorem applied to the one-transaction log,
at `k = 0` (full history) and `k = 2` (beyond the length: panic). -/
theorem get_transactions_since_id_amended_witness :
    get_transactions_since_id ([[⟨0, none⟩]] : Transactions Nat) 0 =
      some [[⟨0, none⟩]]
  ∧ get_transactions_since_id ([[⟨0, none⟩]] : Transactions Nat) 2 = none :=
  ⟨by simpa using
      (get_transactions_since_id_amended ([[⟨0, none⟩]] : Transactions Nat) 0).1
        (by decide),
   (get_transactions_since_id_amended ([[⟨0, none⟩]] : Transactions Nat) 2).2.2.2
      (by decide)⟩

/-- C3: `add_transaction` fails with `WrongTransactionId` if and only if
the submitted id differs from the current transaction count
(`next_transaction_id`), whether smaller or larger. -/
theorem add_transaction_wrong_txn_id_iff {H : Type} [DecidableEq H]
    (txns : Transactions H) (txn_id : Nat) (actions : List (ChcItemData H)) :
    (add_transaction txns txn_id actions).1 =
        Except.error ChcError.WrongTransactionId
      ↔ txn_id ≠ next_transaction_id txns := by
  unfold add_transaction next_transaction_id
  constructor
  · intro he heq
    subst heq
    rw [if_neg (by omega)] at he
    split at he <;> simp_all
  · intro h
    rw [if_pos (Ne.symm h)]

/-- C5: `add_transaction` is atomic — either the whole batch is appended
as one unit (on `Ok`), or the log is left exactly unchanged (on any
error). -/
theorem add_transaction_atomic {H : Type} [DecidableEq H]
    (txns : Transactions H) (txn_id : Nat) (actions : List (ChcItemData H)) :
    add_transaction txns txn_id actions = (Except.ok (), txns ++ [actions])
  ∨ ∃ e, add_transaction txns txn_id actions = (Except.error e, txns) :=
  add_transaction_cases txns txn_id actions

/-- C4: with at least one prior transaction (each non-empty) and a
non-empty batch submitted at the correct id, `add_transaction` fails with
`HashMismatch` exactly when the first item's `prev_hash` differs from the
hash of the final item of the preceding transaction; the log is unchanged
after that failure, and when the `prev_hash` matches the boundary check
passes. -/
theorem add_transaction_hash_mismatch_iff {H : Type} [DecidableEq H]
    (txns : Transactions H) (t : List (ChcItemData H)) (l a0 : ChcItemData H)
    (actions : List (ChcItemData H))
    (hne : ∀ u ∈ txns, u ≠ [])
    (ht : txns.getLast? = some t) (hl : t.getLast? = some l)
    (ha : actions.head? = some a0) :
    ((add_transaction txns (next_transaction_id txns) actions).1 =
        Except.error ChcError.HashMismatch ↔ a0.prev_hash ≠ some l.hash)
  ∧ ((add_transaction txns (next_transaction_id txns) actions).1 =
        Except.error ChcError.HashMismatch →
      (add_transaction txns (next_transaction_id txns) actions).2 = txns)
  ∧ (a0.prev_hash = some l.hash →
      (add_transaction txns (next_transaction_id txns) actions).1 =
        Except.ok ()) := by
  have hb : boundary_mismatch txns actions =
      decide (a0.prev_hash ≠ some l.hash) := by
    unfold boundary_mismatch
    rw [ht]
    simp only [Option.some_bind]
    rw [hl, ha]
  have hmain : add_transaction txns (next_transaction_id txns) actions =
      if a0.prev_hash = some l.hash then (Except.ok (), txns ++ [actions])
      else (Except.error ChcError.HashMismatch, txns) := by
    unfold add_transaction next_transaction_id
    rw [if_neg (by omega), hb]
    by_cases hp : a0.prev_hash = some l.hash
    · simp [hp]
    · simp [hp]
  by_cases hp : a0.prev_hash = some l.hash
  · rw [hmain, if_pos hp]
    refine ⟨?_, ?_, fun _ => rfl⟩
    · simp [hp]
    · intro h
      simp at h
  · rw [hmain, if_neg hp]
    exact ⟨by simp [hp], fun _ => rfl, fun h => absurd h hp⟩

/-- C4 witness: the claim theorem applied to a one-transaction log and a
batch whose first item carries a stale parent hash. -/
theorem add_transaction_hash_mismatch_iff_witness :
    (add_transaction ([[⟨0, none⟩]] : Transactions Nat)
        (next_transaction_id ([[⟨0, none⟩]] : Transactions Nat))
        [⟨5, some 3⟩]).1 = Except.error ChcError.HashMismatch :=
  (add_transaction_hash_mismatch_iff [[⟨0, none⟩]] [⟨0, none⟩] ⟨0, none⟩
      ⟨5, some 3⟩ [⟨5, some 3⟩] (by decide) rfl rfl rfl).1.mpr (by decide)

/-- C6: `next_transaction_id` always returns the count of committed
transactions, and after successfully appending batches `T0..Tn` in order
on a fresh coordinator (each at its returned id), the id equals `n + 1`
and `get_transactions_since_id 0` returns exactly `[T0, …, Tn]` in
order. -/
theorem local_chc_append_sequence {H : Type} [DecidableEq H] :
    (∀ txns : Transactions H, next_transaction_id txns = txns.length)
  ∧ (∀ (ts : List (List (ChcItemData H))) (s : Transactions H),
      append_all [] ts = Except.ok s →
        next_transaction_id s = ts.length
      ∧ get_transactions_since_id s 0 = some ts) := by
  refine ⟨fun _ => rfl, ?_⟩
  intro ts s h
  have hs : s = [] ++ ts := append_all_ok_eq ts [] s h
  simp only [List.nil_append] at hs
  subst hs
  exact ⟨rfl, by simp [get_transactions_since_id]⟩

/-- C6 witness: two hash-linked batches appended on the fresh
coordinator. -/
theorem local_chc_append_sequence_witness :
    next_transaction_id ([[⟨0, none⟩], [⟨1, some 0⟩]] : Transactions Nat) = 2
  ∧ get_transactions_since_id
      ([[⟨0, none⟩], [⟨1, some 0⟩]] : Transactions Nat) 0 =
      some [[⟨0, none⟩], [⟨1, some 0⟩]] := by
  have h := local_chc_append_sequence.2 [[⟨0, none⟩], [⟨1, some 0⟩]]
    [[⟨0, none⟩], [⟨1, some 0⟩]] (by rfl)
  exact ⟨by simpa using h.1, h.2⟩

/-- C7: continuity is validated only at transaction boundaries — a batch
whose first item links to the current head (or an empty log) is accepted
even when some item inside the batch does not carry the hash of its
predecessor. -/
theorem add_transaction_boundary_only {H : Type} [DecidableEq H]
    (txns : Transactions H) (actions : List (ChcItemData H))
    (hhead : txns = [] ∨ ∃ l a0,
        txns.getLast?.bind (fun t => t.getLast?) = some l ∧
        actions.head? = some a0 ∧ a0.prev_hash = some l.hash)
    (hbroken : ∃ i a b, actions[i]? = some a ∧ actions[i + 1]? = some b ∧
        b.prev_hash ≠ some a.hash) :
    add_transaction txns (next_transaction_id txns) actions =
      (Except.ok (), txns ++ [actions]) := by
  have hb : boundary_mismatch txns actions = false := by
    rcases hhead with h | ⟨l, a0, hl, ha, hlink⟩
    · subst h
      unfold boundary_mismatch
      simp
    · unfold boundary_mismatch
      rw [hl, ha]
      simp [hlink]
  simp [add_transaction, next_transaction_id, hb]

/-- C7 witness: on the empty log, a two-item batch whose second item
carries a wrong parent hash is accepted whole. -/
theorem add_transaction_boundary_only_witness :
    add_transaction ([] : Transactions Nat)
        (next_transaction_id ([] : Transactions Nat))
        [⟨0, none⟩, ⟨5, some 99⟩] =
      (Except.ok (), [[⟨0, none⟩, ⟨5, some 99⟩]]) := by
  simpa using add_transaction_boundary_only ([] : Transactions Nat)
    [⟨0, none⟩, ⟨5, some 99⟩] (Or.inl rfl)
    ⟨0, ⟨0, none⟩, ⟨5, some 99⟩, rfl, rfl, by decide⟩

/-- C9: `add_transaction` accepts the empty batch at the correct id and
appends an empty transaction; and whenever the last committed transaction
is empty, the next correctly-numbered `add_transaction` performs no hash
check at all, so any batch — whatever its first item's `prev_hash` — is
accepted. -/
theorem add_transaction_empty_batch {H : Type} [DecidableEq H]
    (txns : Transactions H) :
    (add_transaction txns (next_transaction_id txns)
        ([] : List (ChcItemData H)) = (Except.ok (), txns ++ [[]]))
  ∧ (txns.getLast? = some [] →
      ∀ actions, add_transaction txns (next_transaction_id txns) actions =
        (Except.ok (), txns ++ [actions])) := by
  constructor
  · have hb : boundary_mismatch txns ([] : List (ChcItemData H)) = false := by
      unfold boundary_mismatch
      cases txns.getLast?.bind (fun t => t.getLast?) <;> rfl
    simp [add_transaction, next_transaction_id, hb]
  · intro hlast actions
    have hb : boundary_mismatch txns actions = false := by
      unfold boundary_mismatch
      rw [hlast]
      simp
    simp [add_transaction, next_transaction_id, hb]

/-- C9 witness: after an empty transaction, a batch with an arbitrary
(dangling) `prev_hash` is accepted at the next id. -/
theorem add_transaction_empty_batch_witness :
    add_transaction ([[]] : Transactions Nat)
        (next_transaction_id ([[]] : Transactions Nat)) [⟨7, some 99⟩] =
      (Except.ok (), [[], [⟨7, some 99⟩]]) := by
  simpa using
    (add_transaction_empty_batch ([[]] : Transactions Nat)).2 rfl [⟨7, some 99⟩]

/-- C8 (spec-modelled): with `current_head` absent, `validate_chain`
succeeds exactly when the candidate sequence starts at position 0 with
no `prev_hash` and is internally hash-linked; on any violation it fails
with the `InvalidChain` condition carrying the first offending index,
and it succeeds silently otherwise. -/
theorem validate_chain_none_spec {H : Type} [DecidableEq H]
    (items : List (ChainItemData H)) :
    (validate_chain items none = Except.ok () ↔
      starts_fresh items ∧ internally_linked items)
  ∧ (∀ j, validate_chain items none = Except.error j →
      offending items j ∧ ∀ i, i < j → ¬ offending items i) := by
  cases items with
  | nil =>
    constructor
    · constructor
      · intro _
        exact ⟨fun a ha => by simp at ha, fun i a b ha _ => by simp at ha⟩
      · intro _
        rfl
    · intro j h
      exact absurd h (by simp [validate_chain])
  | cons a rest =>
    simp only [validate_chain]
    by_cases hh : a.seq = 0 ∧ a.prev_hash = none
    · have hb : head_check (H := H) none a = true := by
        unfold head_check
        exact decide_eq_true hh
      rw [if_pos hb]
      constructor
      · rw [link_scan_ok_iff rest a 1]
        constructor
        · intro hp
          refine ⟨?_, ?_⟩
          · intro x hx
            simp only [List.head?_cons, Option.some.injEq] at hx
            subst hx
            exact hh
          · intro i x y hx hy
            exact hp i x y hx hy
        · intro hsl k x y hx hy
          exact hsl.2 k x y hx hy
      · intro j h
        obtain ⟨k, hk, ⟨x, y, hx, hy, hbad⟩, hgood⟩ := link_scan_error rest a 1 j h
        have hk2 : j = k + 1 := by omega
        subst hk2
        constructor
        · exact ⟨x, y, hx, hy, hbad⟩
        · intro i hi hoff
          cases i with
          | zero =>
            obtain ⟨z, hz, hnz⟩ := hoff
            simp only [List.head?_cons, Option.some.injEq] at hz
            subst hz
            exact hnz hh
          | succ i =>
            obtain ⟨x2, y2, hx2, hy2, hne2⟩ := hoff
            exact hne2 (hgood i (by omega) x2 y2 hx2 hy2)
    · have hb : head_check (H := H) none a = false := by
        unfold head_check
        exact decide_eq_false hh
      rw [if_neg (by simp [hb])]
      constructor
      · constructor
        · intro h
          exact absurd h (by simp)
        · intro hsl
          exact absurd (hsl.1 a rfl) hh
      · intro j h
        injection h with hj
        subst hj
        refine ⟨⟨a, rfl, hh⟩, ?_⟩
        intro i hi
        exact absurd hi (Nat.not_lt_zero i)

/-- C8 witness: the claim theorem applied to a well-formed two-item chain
starting at position 0; `validate_chain` succeeds on it, so the chain
starts fresh and is internally linked. -/
theorem validate_chain_none_spec_witness :
    starts_fresh ([⟨0, none, 0⟩, ⟨1, some 0, 1⟩] : List (ChainItemData Nat))
  ∧ internally_linked
      ([⟨0, none, 0⟩, ⟨1, some 0, 1⟩] : List (ChainItemData Nat)) :=
  (validate_chain_none_spec
    ([⟨0, none, 0⟩, ⟨1, some 0, 1⟩] : List (ChainItemData Nat))).1.mp (by rfl)

end Chc
